import Mathlib

/-!
Verification of the `switflake` identifier generator.

Shallow embedding of `src/lib.rs` (crate `switflake`), a Snowflake-style
64-bit identifier generator with a shared 8-slot thread-id pool.

Modelling conventions:
* Machine integers (`u8`, `u64`, `u128`) are `Nat`, with an explicit
  `% 2 ^ w` exactly where the Rust operation can wrap its type given
  operands in their type ranges (the `as u64` cast of `as_millis`, the
  `u64` shift of `node_id`, the `u8` shift `1 << id` in `release`, and
  the `u8` increment of `local_counter`).  The representation invariant
  of the Rust types (`u8` values are `< 2 ^ 8`, etc.) appears as
  hypotheses / the `Wf` predicate on the theorems.
* `SystemTime::now().duration_since(UNIX_EPOCH)` is modelled by a
  `clock : Option Nat` argument: `some t` is a clock reading of `t`
  milliseconds since the epoch (the `u128` returned by `as_millis`);
  `none` is a clock reading before the epoch (`duration_since` fails).
* The atomic pool operations are modelled by their sequential
  (interference-free) semantics: a `compare_exchange` from the value
  just loaded always succeeds, so `acquire`'s retry loop runs exactly
  one pass of the `for i in 0..8` scan.
* Errors are the `&'static str` messages of the source, carried in
  `Except String`.  The spec's names for them: `PoolFull` =
  "Thread pool full (max 8 simultaneous threads)" / "No available thread
  IDs (max 8)", `SequenceExhausted` = "Sequence limit reached for this
  millisecond", `ClockError` = "Time went backwards".
-/

/-- Bitwise complement on `u8`: `!w` in Rust for `w : u8`. -/
def not8 (w : Nat) : Nat := (w % 2 ^ 8) ^^^ 0xFF

namespace ThreadIdPool

/-- The `for i in 0..8` scan of `acquire`: first index `i < 8` whose bit is
clear in the occupancy word `w` (`current & mask == 0` with `mask = 1 << i`). -/
def findFreeSlot (w : Nat) : Option Nat :=
  (List.range 8).find? (fun i => w &&& (1 <<< i) == 0)

/-- `ThreadIdPool::acquire`, sequential semantics of the CAS retry loop: with
no concurrent interference the `compare_exchange` from the loaded value
succeeds, so the function returns on the first scan.  `!current == 0` (the
full test) is `not8 w = 0`.  For `w < 2 ^ 8` the `findFreeSlot` fallback
branch is unreachable (a non-full `u8` word always has a clear bit among
bits 0–7); it is given the same error as the full case. -/
def acquire (w : Nat) : Except String (Nat × Nat) :=
  if not8 w = 0 then .error "No available thread IDs (max 8)"
  else
    match findFreeSlot w with
    | some i => .ok (i, w ||| (1 <<< i))
    | none => .error "No available thread IDs (max 8)"

/-- `ThreadIdPool::release`: `fetch_and` with mask `!(1u8 << id)`.  The `u8`
shift wraps modulo `2 ^ 8` (release-mode semantics). -/
def release (id : Nat) (w : Nat) : Nat := w &&& not8 ((1 <<< id) % 2 ^ 8)

/-- `ThreadIdPool::is_full`: `!load == 0`. -/
def is_full (w : Nat) : Bool := not8 w = 0

end ThreadIdPool

/-- The `Switflake` generator state: `node_id: u64`, `thread_id: u8`,
`local_counter: u8`. -/
structure Switflake where
  node_id : Nat
  thread_id : Nat
  local_counter : Nat
deriving DecidableEq, Repr

/-- Representation invariant established by `Switflake::new`: the stored
node id is the masked 12-bit value, the slot id came from the pool (0–7),
and the counter is a `u8` value. -/
def Switflake.Wf (s : Switflake) : Prop :=
  s.node_id < 2 ^ 12 ∧ s.thread_id < 8 ∧ s.local_counter < 2 ^ 8

/-- `Switflake::new`, threading the pool occupancy word `w` explicitly:
advisory `is_full` check, then `acquire`, then the struct with
`node_id & 0xFFF` and counter 0. -/
def Switflake.new (node_id : Nat) (w : Nat) : Except String (Switflake × Nat) :=
  if ThreadIdPool.is_full w then
    .error "Thread pool full (max 8 simultaneous threads)"
  else
    match ThreadIdPool.acquire w with
    | .error e => .error e
    | .ok (thread_id, w') =>
      .ok ({ node_id := node_id &&& 0xFFF, thread_id := thread_id,
             local_counter := 0 }, w')

/-- `Switflake::generate_id`.  Returns the `Result` together with the
post-call generator state (the Rust method mutates `&mut self`; the error
paths return before any mutation).  `clock` models the
`SystemTime::now().duration_since(UNIX_EPOCH)` reading. -/
def Switflake.generate_id (clock : Option Nat) (s : Switflake) :
    Except String Nat × Switflake :=
  if s.local_counter = 0xFF then
    (.error "Sequence limit reached for this millisecond", s)
  else
    match clock with
    | none => (.error "Time went backwards", s)
    | some t =>
      let timestamp := (t % 2 ^ 64) &&& 0x1FFFFFFFFFF
      let sequence := (s.thread_id <<< 8) ||| s.local_counter
      let id := (timestamp <<< 23) ||| ((s.node_id <<< 11) % 2 ^ 64) |||
        (sequence &&& 0x7FF)
      (.ok id, { s with local_counter := (s.local_counter + 1) % 2 ^ 8 })

/-- `impl Drop for Switflake`: release the held slot back to the pool. -/
def Switflake.drop (s : Switflake) (w : Nat) : Nat :=
  ThreadIdPool.release s.thread_id w

/-- Run a sequence of `generate_id` calls, one per clock reading; `none`
if any call fails. -/
def runGen : List (Option Nat) → Switflake → Option (List Nat × Switflake)
  | [], s => some ([], s)
  | c :: cs, s =>
    match Switflake.generate_id c s with
    | (.ok id, s') =>
      match runGen cs s' with
      | some (ids, s'') => some (id :: ids, s'')
      | none => none
    | (.error _, _) => none

/-- Whole-process state: the pool occupancy word and the multiset (list) of
live generators. -/
structure SysState where
  pool : Nat
  live : List Switflake
deriving DecidableEq

/-- One step of the system: constructing a generator (`Switflake::new`
succeeding), destroying one (`Drop` runs `release`), or calling
`generate_id` on one (any clock outcome; the pool is untouched). -/
inductive Step : SysState → SysState → Prop
  | construct (σ : SysState) (nid : Nat) (g : Switflake) (w' : Nat)
      (h : Switflake.new nid σ.pool = .ok (g, w')) :
      Step σ ⟨w', g :: σ.live⟩
  | destroy (σ : SysState) (l₁ l₂ : List Switflake) (g : Switflake)
      (h : σ.live = l₁ ++ g :: l₂) :
      Step σ ⟨ThreadIdPool.release g.thread_id σ.pool, l₁ ++ l₂⟩
  | generate (σ : SysState) (l₁ l₂ : List Switflake) (g : Switflake)
      (clock : Option Nat) (h : σ.live = l₁ ++ g :: l₂) :
      Step σ ⟨σ.pool, l₁ ++ (Switflake.generate_id clock g).2 :: l₂⟩

/-- States reachable from the initial state (empty pool, no generators). -/
inductive Reachable : SysState → Prop
  | init : Reachable ⟨0, []⟩
  | step {σ σ' : SysState} : Reachable σ → Step σ σ' → Reachable σ'

/-- Number of live generators holding slot `i`. -/
def holdersCount (σ : SysState) (i : Nat) : Nat :=
  σ.live.countP (fun g => g.thread_id == i)

example : Switflake.new 1 0 = .ok (⟨1, 0, 0⟩, 1) := rfl
example : Switflake.new 0x1FFF 0 = .ok (⟨0xFFF, 0, 0⟩, 1) := rfl
example : Switflake.new 1 0xFF =
    .error "Thread pool full (max 8 simultaneous threads)" := rfl
example : ThreadIdPool.acquire 0b101 = .ok (1, 0b111) := rfl
example : ThreadIdPool.release 1 0b111 = 0b101 := by decide
example : (Switflake.generate_id (some 3) ⟨1, 0, 0⟩).1 =
    .ok ((3 <<< 23) ||| (1 <<< 11)) := rfl
example : (Switflake.generate_id (some 3) ⟨1, 2, 5⟩).2 = ⟨1, 2, 6⟩ := by decide
example : (Switflake.generate_id none ⟨1, 2, 5⟩) =
    (.error "Time went backwards", ⟨1, 2, 5⟩) := rfl
example : (Switflake.generate_id (some 3) ⟨1, 2, 255⟩) =
    (.error "Sequence limit reached for this millisecond", ⟨1, 2, 255⟩) := rfl

/-! Bit-level helper lemmas -/

lemma one_shiftLeft_eq (i : Nat) : 1 <<< i = 2 ^ i := by
  rw [Nat.shiftLeft_eq, one_mul]

lemma and_one_shift_eq_zero_iff (w i : Nat) :
    w &&& (1 <<< i) = 0 ↔ w.testBit i = false := by
  rw [one_shiftLeft_eq, Nat.and_two_pow]
  cases h : w.testBit i <;> simp

lemma not8_testBit (m j : Nat) :
    (not8 m).testBit j = (decide (j < 8) && !(m.testBit j)) := by
  unfold not8
  have h255 : (0xFF : Nat) = 2 ^ 8 - 1 := by norm_num
  rw [Nat.testBit_xor, Nat.testBit_mod_two_pow, h255, Nat.testBit_two_pow_sub_one]
  cases h : m.testBit j <;> by_cases hj : j < 8 <;> simp [hj]

lemma not8_eq_zero_iff (w : Nat) : not8 w = 0 ↔ w % 2 ^ 8 = 0xFF := by
  unfold not8
  exact Nat.xor_eq_zero

lemma testBit_false_of_lt {w j : Nat} (hw : w < 2 ^ 8) (hj : 8 ≤ j) :
    w.testBit j = false :=
  Nat.testBit_lt_two_pow (lt_of_lt_of_le hw (Nat.pow_le_pow_right (by norm_num) hj))

lemma or_mul_pow_eq_add {a b k : Nat} (hb : b < 2 ^ k) :
    (a * 2 ^ k) ||| b = a * 2 ^ k + b := by
  apply Nat.eq_of_testBit_eq
  intro j
  have hr : (a * 2 ^ k + b).testBit j =
      if j < k then b.testBit j else a.testBit (j - k) := by
    rw [Nat.mul_comm a (2 ^ k)]
    exact Nat.testBit_mul_pow_two_add a hb j
  rw [Nat.testBit_or, hr, ← Nat.shiftLeft_eq, Nat.testBit_shiftLeft]
  by_cases hj : j < k
  · simp [hj, Nat.not_le.mpr hj]
  · have : b.testBit j = false :=
      Nat.testBit_lt_two_pow (lt_of_lt_of_le hb (Nat.pow_le_pow_right (by norm_num) (Nat.not_lt.mp hj)))
    simp [hj, Nat.not_lt.mp hj, this]

/-! Slot-pool lemmas -/

lemma find?_range'_min {p : Nat → Bool} :
    ∀ (n s i : Nat), (List.range' s n).find? p = some i →
      ∀ j, s ≤ j → j < i → p j = false := by
  intro n
  induction n with
  | zero => intro s i h j _ _; simp at h
  | succ n ih =>
    intro s i h j hsj hji
    rw [List.range'_succ] at h
    by_cases hs : p s = true
    · rw [List.find?_cons_of_pos _ hs] at h
      injection h with h
      omega
    · rw [List.find?_cons_of_neg _ hs] at h
      rcases Nat.eq_or_lt_of_le hsj with hj | hj
      · rw [← hj]
        exact Bool.eq_false_iff.mpr hs
      · exact ih (s + 1) i h j hj hji

lemma findFreeSlot_some {w i : Nat} (h : ThreadIdPool.findFreeSlot w = some i) :
    i < 8 ∧ w.testBit i = false := by
  have hm := List.mem_of_find?_eq_some h
  have hp := List.find?_some h
  rw [List.mem_range] at hm
  refine ⟨hm, ?_⟩
  rw [← and_one_shift_eq_zero_iff]
  simpa using hp

lemma findFreeSlot_min {w i : Nat} (h : ThreadIdPool.findFreeSlot w = some i) :
    ∀ j, j < i → w.testBit j = true := by
  intro j hj
  unfold ThreadIdPool.findFreeSlot at h
  rw [List.range_eq_range'] at h
  have hf := find?_range'_min 8 0 i h j (Nat.zero_le j) hj
  have h2 : ¬ (w &&& (1 <<< j) = 0) := by simpa using hf
  cases hb : w.testBit j
  · exact absurd ((and_one_shift_eq_zero_iff w j).mpr hb) h2
  · rfl

lemma testBit_255 (j : Nat) : (0xFF : Nat).testBit j = decide (j < 8) := by
  have h : (0xFF : Nat) = 2 ^ 8 - 1 := by norm_num
  rw [h, Nat.testBit_two_pow_sub_one]

lemma findFreeSlot_isSome {w : Nat} (hw : w < 2 ^ 8) (hfull : w ≠ 0xFF) :
    ∃ i, ThreadIdPool.findFreeSlot w = some i := by
  have hex : ∃ i ∈ List.range 8, (w &&& (1 <<< i) == 0) = true := by
    by_contra hall
    push_neg at hall
    apply hfull
    apply Nat.eq_of_testBit_eq
    intro j
    rw [testBit_255]
    by_cases hj : j < 8
    · have hne := hall j (List.mem_range.mpr hj)
      have h2 : ¬ (w &&& (1 <<< j) = 0) := by simpa using hne
      have h3 : w.testBit j = true := by
        cases hb : w.testBit j
        · exact absurd ((and_one_shift_eq_zero_iff w j).mpr hb) h2
        · rfl
      rw [h3]
      simp [hj]
    · rw [testBit_false_of_lt hw (Nat.not_lt.mp hj)]
      simp [hj]
  have hs : (ThreadIdPool.findFreeSlot w).isSome = true := by
    unfold ThreadIdPool.findFreeSlot
    exact List.find?_isSome.mpr hex
  exact Option.isSome_iff_exists.mp hs

lemma acquire_ok_inv {w i w' : Nat} (h : ThreadIdPool.acquire w = .ok (i, w')) :
    i < 8 ∧ w.testBit i = false ∧ (∀ j, j < i → w.testBit j = true) ∧
      w' = w ||| (1 <<< i) := by
  unfold ThreadIdPool.acquire at h
  by_cases hf : not8 w = 0
  · simp [hf] at h
  · rw [if_neg hf] at h
    cases hfs : ThreadIdPool.findFreeSlot w with
    | none => rw [hfs] at h; simp at h
    | some k =>
      rw [hfs] at h
      injection h with hpair
      injection hpair with h1 h2
      subst h1
      subst h2
      obtain ⟨hk8, hbit⟩ := findFreeSlot_some hfs
      exact ⟨hk8, hbit, findFreeSlot_min hfs, rfl⟩

lemma acquire_full {w : Nat} (hw : w < 2 ^ 8) :
    ThreadIdPool.acquire w = .error "No available thread IDs (max 8)" ↔
      w = 0xFF := by
  constructor
  · intro h
    by_contra hne
    obtain ⟨i, hi⟩ := findFreeSlot_isSome hw hne
    unfold ThreadIdPool.acquire at h
    have hf : ¬ (not8 w = 0) := by
      rw [not8_eq_zero_iff, Nat.mod_eq_of_lt hw]
      exact hne
    rw [if_neg hf, hi] at h
    simp at h
  · intro h
    subst h
    rfl

lemma release_testBit {id : Nat} (w : Nat) (hid : id < 8) (hw : w < 2 ^ 8) :
    ∀ j, (ThreadIdPool.release id w).testBit j =
      (w.testBit j && !(decide (j = id))) := by
  intro j
  unfold ThreadIdPool.release
  have h1 : (1 <<< id) % 2 ^ 8 = 2 ^ id := by
    rw [one_shiftLeft_eq]
    exact Nat.mod_eq_of_lt (Nat.pow_lt_pow_right (by norm_num) hid)
  rw [Nat.testBit_and, h1, not8_testBit, Nat.testBit_two_pow]
  by_cases hj8 : j < 8
  · by_cases hji : j = id
    · simp [hji]
    · have : ¬ (id = j) := fun hh => hji hh.symm
      simp [hj8, hji, this]
  · rw [testBit_false_of_lt hw (Nat.not_lt.mp hj8)]
    simp [hj8]

lemma release_le (id w : Nat) : ThreadIdPool.release id w ≤ w :=
  Nat.and_le_left

/-! Generator lemmas -/

lemma mask41_eq_mod (x : Nat) : x &&& 0x1FFFFFFFFFF = x % 2 ^ 41 := by
  have h := Nat.and_pow_two_sub_one_eq_mod x 41
  norm_num at h ⊢
  exact h

lemma mask11_eq_mod (x : Nat) : x &&& 0x7FF = x % 2 ^ 11 := by
  have h := Nat.and_pow_two_sub_one_eq_mod x 11
  norm_num at h ⊢
  exact h

lemma mask12_eq_mod (x : Nat) : x &&& 0xFFF = x % 2 ^ 12 := by
  have h := Nat.and_pow_two_sub_one_eq_mod x 12
  norm_num at h ⊢
  exact h

lemma generate_id_seq_err (clock : Option Nat) (s : Switflake)
    (hc : s.local_counter = 0xFF) :
    Switflake.generate_id clock s =
      (.error "Sequence limit reached for this millisecond", s) := by
  simp [Switflake.generate_id, hc]

lemma generate_id_clock_err (s : Switflake) (hc : s.local_counter ≠ 0xFF) :
    Switflake.generate_id none s = (.error "Time went backwards", s) := by
  simp [Switflake.generate_id, hc]

lemma generate_id_ok_spec (t : Nat) (s : Switflake) (hWf : s.Wf)
    (hc : s.local_counter ≠ 0xFF) :
    ∃ id, Switflake.generate_id (some t) s =
        (.ok id, { s with local_counter := s.local_counter + 1 }) ∧
      id = (t % 2 ^ 41) * 2 ^ 23 +
        (s.node_id * 2 ^ 11 + (s.thread_id * 2 ^ 8 + s.local_counter)) ∧
      id % 2 ^ 8 = s.local_counter ∧ (id >>> 11) &&& 0xFFF = s.node_id ∧
      id >>> 23 = t % 2 ^ 41 := by
  obtain ⟨hn, htid, hcnt⟩ := hWf
  have hc1 : (s.local_counter + 1) % 2 ^ 8 = s.local_counter + 1 := by
    apply Nat.mod_eq_of_lt
    have : (0xFF : Nat) = 255 := by norm_num
    omega
  have hseq : (s.thread_id <<< 8) ||| s.local_counter =
      s.thread_id * 2 ^ 8 + s.local_counter := by
    rw [Nat.shiftLeft_eq]
    exact or_mul_pow_eq_add hcnt
  have hseqlt : s.thread_id * 2 ^ 8 + s.local_counter < 2 ^ 11 := by omega
  have hseqmask : ((s.thread_id <<< 8) ||| s.local_counter) &&& 0x7FF =
      s.thread_id * 2 ^ 8 + s.local_counter := by
    rw [hseq, mask11_eq_mod]
    exact Nat.mod_eq_of_lt hseqlt
  have hts : (t % 2 ^ 64) &&& 0x1FFFFFFFFFF = t % 2 ^ 41 := by
    rw [mask41_eq_mod]
    omega
  have hnode : (s.node_id <<< 11) % 2 ^ 64 = s.node_id * 2 ^ 11 := by
    rw [Nat.shiftLeft_eq]
    apply Nat.mod_eq_of_lt
    omega
  have hinner : (s.node_id * 2 ^ 11) ||| (s.thread_id * 2 ^ 8 + s.local_counter) =
      s.node_id * 2 ^ 11 + (s.thread_id * 2 ^ 8 + s.local_counter) :=
    or_mul_pow_eq_add hseqlt
  have houter : ((t % 2 ^ 41) * 2 ^ 23) |||
      (s.node_id * 2 ^ 11 + (s.thread_id * 2 ^ 8 + s.local_counter)) =
      (t % 2 ^ 41) * 2 ^ 23 +
        (s.node_id * 2 ^ 11 + (s.thread_id * 2 ^ 8 + s.local_counter)) :=
    or_mul_pow_eq_add (by omega)
  refine ⟨(t % 2 ^ 41) * 2 ^ 23 +
    (s.node_id * 2 ^ 11 + (s.thread_id * 2 ^ 8 + s.local_counter)), ?_, rfl,
    by omega, ?_, by omega⟩
  · simp only [Switflake.generate_id, if_neg hc]
    rw [hts, hnode, hseqmask, Nat.or_assoc, Nat.shiftLeft_eq, hinner, houter,
      hc1]
  · rw [Nat.shiftRight_eq_div_pow, mask12_eq_mod]
    omega

lemma generate_id_ok_inv {clock : Option Nat} {s : Switflake} {id : Nat}
    (h : (Switflake.generate_id clock s).1 = .ok id) :
    s.local_counter ≠ 0xFF ∧ ∃ t, clock = some t := by
  by_cases hc : s.local_counter = 0xFF
  · rw [generate_id_seq_err clock s hc] at h
    simp at h
  · refine ⟨hc, ?_⟩
    cases clock with
    | none =>
      rw [generate_id_clock_err s hc] at h
      simp at h
    | some t => exact ⟨t, rfl⟩

lemma generate_id_state_fields (clock : Option Nat) (s : Switflake) :
    (Switflake.generate_id clock s).2.node_id = s.node_id ∧
    (Switflake.generate_id clock s).2.thread_id = s.thread_id ∧
    ((Switflake.generate_id clock s).2.local_counter = s.local_counter ∨
      (Switflake.generate_id clock s).2.local_counter =
        (s.local_counter + 1) % 2 ^ 8) := by
  unfold Switflake.generate_id
  by_cases hc : s.local_counter = 0xFF
  · simp [hc]
  · cases clock <;> simp [hc]

lemma runGen_ok_spec :
    ∀ (cs : List (Option Nat)) (s : Switflake) (ids : List Nat) (s' : Switflake),
    s.Wf → runGen cs s = some (ids, s') →
    ids.length = cs.length ∧
    s'.node_id = s.node_id ∧ s'.thread_id = s.thread_id ∧
    s'.local_counter = s.local_counter + cs.length ∧
    s.local_counter + cs.length ≤ 0xFF ∧
    ids.map (· % 2 ^ 8) = List.range' s.local_counter cs.length ∧
    ∀ id ∈ ids, (id >>> 11) &&& 0xFFF = s.node_id := by
  intro cs
  induction cs with
  | nil =>
    intro s ids s' hWf h
    simp only [runGen, Option.some.injEq, Prod.mk.injEq] at h
    obtain ⟨h1, h2⟩ := h
    subst h1
    subst h2
    have hcnt := hWf.2.2
    refine ⟨rfl, rfl, rfl, rfl, by norm_num at hcnt ⊢; omega, by simp, by simp⟩
  | cons c0 cs ih =>
    intro s ids s' hWf h
    rw [runGen] at h
    cases hg1 : Switflake.generate_id c0 s with
    | mk r s₂ =>
      rw [hg1] at h
      cases r with
      | error e => simp at h
      | ok id =>
        obtain ⟨hc, t, hct⟩ := generate_id_ok_inv (hg1 ▸ rfl :
          (Switflake.generate_id c0 s).1 = .ok id)
        subst hct
        obtain ⟨id₀, heq, hval, hmod, hnodef, hts⟩ :=
          generate_id_ok_spec t s hWf hc
        rw [heq] at hg1
        injection hg1 with hg1a hg1b
        injection hg1a with hg1a
        subst hg1a
        subst hg1b
        simp at h
        cases hr : runGen cs ({ s with local_counter := s.local_counter + 1 }) with
        | none =>
          rw [hr] at h
          simp at h
        | some p =>
          cases p with
          | mk ids' s'' =>
            rw [hr] at h
            simp only [Option.some.injEq, Prod.mk.injEq] at h
            obtain ⟨h1, h2⟩ := h
            subst h1
            subst h2
            have hWf₂ : Switflake.Wf { s with local_counter := s.local_counter + 1 } := by
              obtain ⟨hn, htid, hcnt⟩ := hWf
              refine ⟨hn, htid, ?_⟩
              simp only []
              norm_num at hc ⊢
              omega
            obtain ⟨hlen, hnode2, htid2, hcnt2, hbd2, hmap2, hnd2⟩ :=
              ih _ ids' s'' hWf₂ hr
            simp only [List.length_cons]
            refine ⟨by omega, by simpa using hnode2, by simpa using htid2,
              by simp at hcnt2 ⊢; omega, ?_, ?_, ?_⟩
            · simp at hbd2
              norm_num at hc hWf ⊢
              omega
            · rw [List.map_cons, hmod, hmap2]
              simp [List.range'_succ]
            · intro x hx
              rcases List.mem_cons.mp hx with hx | hx
              · subst hx
                exact hnodef
              · simpa using hnd2 x hx

lemma runGen_total :
    ∀ (cs : List (Option Nat)) (s : Switflake), s.Wf →
    (∀ c ∈ cs, c ≠ none) → s.local_counter + cs.length ≤ 0xFF →
    ∃ ids s', runGen cs s = some (ids, s') := by
  intro cs
  induction cs with
  | nil =>
    intro s _ _ _
    exact ⟨[], s, rfl⟩
  | cons c0 cs ih =>
    intro s hWf hsome hbd
    have hc0 : c0 ≠ none := hsome c0 (List.mem_cons_self c0 cs)
    cases c0 with
    | none => exact absurd rfl hc0
    | some t =>
      have hc : s.local_counter ≠ 0xFF := by
        simp only [List.length_cons] at hbd
        omega
      obtain ⟨id₀, heq, _, _, _, _⟩ := generate_id_ok_spec t s hWf hc
      have hWf₂ : Switflake.Wf { s with local_counter := s.local_counter + 1 } := by
        obtain ⟨hn, htid, hcnt⟩ := hWf
        refine ⟨hn, htid, ?_⟩
        show s.local_counter + 1 < 2 ^ 8
        omega
      obtain ⟨ids, s', hrun⟩ := ih _ hWf₂
        (fun c hcm => hsome c (List.mem_cons_of_mem _ hcm))
        (by
          show s.local_counter + 1 + cs.length ≤ 0xFF
          simp only [List.length_cons] at hbd
          omega)
      refine ⟨id₀ :: ids, s', ?_⟩
      rw [runGen, heq]
      simp [hrun]

lemma pairwise_ne_of_countP_le_one :
    ∀ (l : List Switflake),
    (∀ i, i < 8 → l.countP (fun g => g.thread_id == i) ≤ 1) →
    (∀ g ∈ l, g.thread_id < 8) →
    List.Pairwise (fun g₁ g₂ => g₁.thread_id ≠ g₂.thread_id) l := by
  intro l
  induction l with
  | nil =>
    intro _ _
    exact List.Pairwise.nil
  | cons g l ih =>
    intro hcnt htid
    have hg8 : g.thread_id < 8 := htid g (List.mem_cons_self g l)
    refine List.Pairwise.cons ?_
      (ih ?_ (fun x hx => htid x (List.mem_cons_of_mem _ hx)))
    · intro g' hg' heq
      have h1 := hcnt g.thread_id hg8
      rw [List.countP_cons] at h1
      simp only [beq_self_eq_true, if_pos] at h1
      have h2 : 0 < l.countP (fun x => x.thread_id == g.thread_id) :=
        List.countP_pos_iff.mpr ⟨g', hg', by simp [← heq]⟩
      omega
    · intro i hi
      have h1 := hcnt i hi
      rw [List.countP_cons] at h1
      omega

lemma new_ok_inv {nid w : Nat} {g : Switflake} {w' : Nat}
    (h : Switflake.new nid w = .ok (g, w')) :
    g.node_id = nid &&& 0xFFF ∧ g.local_counter = 0 ∧ g.thread_id < 8 ∧
    w.testBit g.thread_id = false ∧ w' = w ||| (1 <<< g.thread_id) ∧
    g.Wf := by
  unfold Switflake.new at h
  by_cases hf : ThreadIdPool.is_full w
  · rw [if_pos hf] at h
    simp at h
  · rw [if_neg hf] at h
    cases ha : ThreadIdPool.acquire w with
    | error e =>
      rw [ha] at h
      simp at h
    | ok p =>
      cases p with
      | mk tid w₂ =>
        rw [ha] at h
        simp at h
        obtain ⟨hg, hw⟩ := h
        obtain ⟨h8, hbit, _, hw2⟩ := acquire_ok_inv ha
        subst hw2
        subst hw
        rw [← hg]
        have hnodelt : nid &&& 0xFFF < 2 ^ 12 := by
          have := Nat.and_le_right (n := nid) (m := 0xFFF)
          omega
        exact ⟨rfl, rfl, h8, hbit, rfl, hnodelt, h8, by norm_num⟩

/-! The pool occupancy invariant -/

/-- Strong system invariant: the pool word is a `u8` value, every live
generator is well-formed, and the number of live holders of slot `i`
is 1 when bit `i` is set and 0 when it is clear. -/
def SysInv (σ : SysState) : Prop :=
  σ.pool < 2 ^ 8 ∧ (∀ g ∈ σ.live, g.Wf) ∧
  ∀ i, i < 8 → holdersCount σ i = (if σ.pool.testBit i then 1 else 0)

lemma holdersCount_cons (w : Nat) (g : Switflake) (l : List Switflake)
    (i : Nat) :
    holdersCount ⟨w, g :: l⟩ i =
      (l.countP (fun x => x.thread_id == i)) +
        (if g.thread_id = i then 1 else 0) := by
  unfold holdersCount
  rw [List.countP_cons]
  congr 1
  simp

lemma holdersCount_append_middle (w w' : Nat) (l₁ l₂ : List Switflake)
    (g : Switflake) (i : Nat) :
    holdersCount ⟨w, l₁ ++ g :: l₂⟩ i =
      holdersCount ⟨w', l₁ ++ l₂⟩ i + (if g.thread_id = i then 1 else 0) := by
  unfold holdersCount
  simp only [List.countP_append, List.countP_cons]
  have : (if (g.thread_id == i) = true then 1 else 0) =
      (if g.thread_id = i then 1 else 0) := by simp
  omega

lemma reachable_sysInv {σ : SysState} (h : Reachable σ) : SysInv σ := by
  induction h with
  | init =>
    refine ⟨by norm_num, by simp, ?_⟩
    intro i _
    simp [holdersCount, Nat.zero_testBit]
  | @step σ₀ σ' hr hs ih =>
    obtain ⟨hpool, hwf, hcount⟩ := ih
    cases hs with
    | construct nid g w' hnew =>
      obtain ⟨hgnode, hgcnt, hgtid, hbit, hw', hgWf⟩ := new_ok_inv hnew
      refine ⟨?_, ?_, ?_⟩
      · show w' < 2 ^ 8
        rw [hw', one_shiftLeft_eq]
        exact Nat.or_lt_two_pow hpool (Nat.pow_lt_pow_right (by norm_num) hgtid)
      · intro x hx
        rcases List.mem_cons.mp hx with hx | hx
        · subst hx
          exact hgWf
        · exact hwf x hx
      · intro i hi
        rw [holdersCount_cons]
        have hbit' : w'.testBit i =
            (σ₀.pool.testBit i || decide (g.thread_id = i)) := by
          rw [hw', Nat.testBit_or, one_shiftLeft_eq, Nat.testBit_two_pow]
        have hold := hcount i hi
        unfold holdersCount at hold
        by_cases hit : g.thread_id = i
        · rw [← hit] at hold hbit' ⊢
          rw [hbit] at hold
          simp only [if_false, Bool.false_eq_true] at hold
          rw [hbit']
          simp [hold, hbit]
        · rw [hbit']
          simp only [hit, if_false, decide_eq_true_eq, Bool.or_false,
            decide_eq_false hit]
          simpa [hit] using hold
    | destroy l₁ l₂ g hsplit =>
      have hgmem : g ∈ σ₀.live := by
        rw [hsplit]
        exact List.mem_append_right _ (List.mem_cons_self _ _)
      have hgWf := hwf g hgmem
      have hgtid : g.thread_id < 8 := hgWf.2.1
      have hc0 := hcount g.thread_id hgtid
      have hsplitc : holdersCount σ₀ g.thread_id =
          holdersCount ⟨0, l₁ ++ l₂⟩ g.thread_id + 1 := by
        conv =>
          lhs
          rw [show σ₀ = ⟨σ₀.pool, σ₀.live⟩ from rfl, hsplit]
        rw [holdersCount_append_middle σ₀.pool 0]
        simp
      have hbitset : σ₀.pool.testBit g.thread_id = true := by
        by_contra hb
        rw [Bool.not_eq_true] at hb
        rw [hb] at hc0
        simp at hc0
        omega
      rw [hbitset] at hc0
      simp only [if_pos] at hc0
      have hrest : holdersCount ⟨0, l₁ ++ l₂⟩ g.thread_id = 0 := by omega
      refine ⟨lt_of_le_of_lt (release_le _ _) hpool, ?_, ?_⟩
      · intro x hx
        apply hwf
        rw [hsplit]
        rcases List.mem_append.mp hx with hx | hx
        · exact List.mem_append_left _ hx
        · exact List.mem_append_right _ (List.mem_cons_of_mem _ hx)
      · intro i hi
        have hrel := release_testBit σ₀.pool hgtid hpool i
        have hcnew : holdersCount
            ⟨ThreadIdPool.release g.thread_id σ₀.pool, l₁ ++ l₂⟩ i =
            holdersCount ⟨0, l₁ ++ l₂⟩ i := rfl
        rw [hcnew, hrel]
        by_cases hit : i = g.thread_id
        · subst hit
          rw [hrest]
          simp
        · have hold := hcount i hi
          have hmid : holdersCount σ₀ i = holdersCount ⟨0, l₁ ++ l₂⟩ i := by
            conv =>
              lhs
              rw [show σ₀ = ⟨σ₀.pool, σ₀.live⟩ from rfl, hsplit]
            rw [holdersCount_append_middle σ₀.pool 0]
            have hgi : ¬ g.thread_id = i := fun hh => hit hh.symm
            simp [hgi]
          rw [← hmid, hold]
          simp [hit]
    | generate l₁ l₂ g clock hsplit =>
      obtain ⟨hnode, htid, hcnt2⟩ := generate_id_state_fields clock g
      have hgmem : g ∈ σ₀.live := by
        rw [hsplit]
        exact List.mem_append_right _ (List.mem_cons_self _ _)
      have hgWf := hwf g hgmem
      have hg'Wf : (Switflake.generate_id clock g).2.Wf := by
        refine ⟨hnode ▸ hgWf.1, htid ▸ hgWf.2.1, ?_⟩
        rcases hcnt2 with hcnt2 | hcnt2
        · exact hcnt2 ▸ hgWf.2.2
        · rw [hcnt2]
          exact Nat.mod_lt _ (by norm_num)
      refine ⟨hpool, ?_, ?_⟩
      · intro x hx
        rcases List.mem_append.mp hx with hx | hx
        · exact hwf x (by rw [hsplit]; exact List.mem_append_left _ hx)
        · rcases List.mem_cons.mp hx with hx | hx
          · subst hx
            exact hg'Wf
          · exact hwf x (by
              rw [hsplit]
              exact List.mem_append_right _ (List.mem_cons_of_mem _ hx))
      · intro i hi
        have hold := hcount i hi
        have h1 : holdersCount ⟨σ₀.pool, l₁ ++ (Switflake.generate_id clock g).2 :: l₂⟩ i =
            holdersCount ⟨0, l₁ ++ l₂⟩ i +
              (if g.thread_id = i then 1 else 0) := by
          rw [holdersCount_append_middle σ₀.pool 0, htid]
        have h2 : holdersCount σ₀ i = holdersCount ⟨0, l₁ ++ l₂⟩ i +
            (if g.thread_id = i then 1 else 0) := by
          conv =>
            lhs
            rw [show σ₀ = ⟨σ₀.pool, σ₀.live⟩ from rfl, hsplit]
          rw [holdersCount_append_middle σ₀.pool 0]
        rw [h1, ← h2, hold]

/-! Claim theorems -/

/-- Claim C5: run without concurrent interference on a `u8` occupancy word,
`acquire` returns the lowest index whose bit is clear and sets exactly that
bit; it returns the `PoolFull` error ("No available thread IDs (max 8)") if
and only if all 8 bits are set at the moment of the scan. -/
theorem acquire_lowest_free (w : Nat) (hw : w < 2 ^ 8) :
    (ThreadIdPool.acquire w = .error "No available thread IDs (max 8)" ↔
      w = 0xFF) ∧
    (w ≠ 0xFF → ∃ i w', ThreadIdPool.acquire w = .ok (i, w') ∧ i < 8 ∧
      w.testBit i = false ∧ (∀ j, j < i → w.testBit j = true) ∧
      ∀ j, w'.testBit j = (w.testBit j || decide (j = i))) := by
  refine ⟨acquire_full hw, ?_⟩
  intro hne
  obtain ⟨i, hfs⟩ := findFreeSlot_isSome hw hne
  have hnot : ¬ (not8 w = 0) := by
    rw [not8_eq_zero_iff, Nat.mod_eq_of_lt hw]
    exact hne
  have hacq : ThreadIdPool.acquire w = .ok (i, w ||| (1 <<< i)) := by
    unfold ThreadIdPool.acquire
    rw [if_neg hnot, hfs]
  obtain ⟨hi8, hbit⟩ := findFreeSlot_some hfs
  refine ⟨i, w ||| (1 <<< i), hacq, hi8, hbit, findFreeSlot_min hfs, ?_⟩
  intro j
  rw [Nat.testBit_or, one_shiftLeft_eq, Nat.testBit_two_pow]
  by_cases hji : j = i
  · simp [hji]
  · have hij : ¬ (i = j) := fun hh => hji hh.symm
    simp [hji, hij]

/-- Witness for C5 at the concrete word `0b101`. -/
theorem acquire_lowest_free_witness :
    ((ThreadIdPool.acquire 5 = .error "No available thread IDs (max 8)") ↔
      (5 : Nat) = 0xFF) ∧
    ((5 : Nat) ≠ 0xFF → ∃ i w', ThreadIdPool.acquire 5 = .ok (i, w') ∧
      i < 8 ∧ (5 : Nat).testBit i = false ∧
      (∀ j, j < i → (5 : Nat).testBit j = true) ∧
      ∀ j, w'.testBit j = ((5 : Nat).testBit j || decide (j = i))) :=
  acquire_lowest_free 5 (by norm_num)

/-- Claim C6: a successful `generate_id` call increments `local_counter` by
exactly 1 and leaves `node_id` and the slot id unchanged; a failed call
leaves the whole generator state unchanged. -/
theorem generate_id_frame (clock : Option Nat) (s : Switflake)
    (hc : s.local_counter < 2 ^ 8) :
    (∀ id s', Switflake.generate_id clock s = (.ok id, s') →
      s'.local_counter = s.local_counter + 1 ∧ s'.node_id = s.node_id ∧
        s'.thread_id = s.thread_id) ∧
    (∀ e s', Switflake.generate_id clock s = (.error e, s') → s' = s) := by
  by_cases hguard : s.local_counter = 0xFF
  · rw [generate_id_seq_err clock s hguard]
    constructor
    · intro id s' hok
      simp at hok
    · intro e s' herr
      injection herr with h1 h2
      exact h2.symm
  · cases clock with
    | none =>
      rw [generate_id_clock_err s hguard]
      constructor
      · intro id s' hok
        simp at hok
      · intro e s' herr
        injection herr with h1 h2
        exact h2.symm
    | some t =>
      constructor
      · intro id s' hok
        simp only [Switflake.generate_id, if_neg hguard] at hok
        injection hok with h1 h2
        rw [← h2]
        refine ⟨?_, rfl, rfl⟩
        show (s.local_counter + 1) % 2 ^ 8 = s.local_counter + 1
        exact Nat.mod_eq_of_lt (by omega)
      · intro e s' herr
        simp only [Switflake.generate_id, if_neg hguard] at herr
        exact absurd herr (by simp)

/-- Witness for C6 at a concrete generator and clock. -/
theorem generate_id_frame_witness :
    (∀ id s', Switflake.generate_id (some 0) ⟨1, 0, 0⟩ = (.ok id, s') →
      s'.local_counter = (0 : Nat) + 1 ∧ s'.node_id = 1 ∧
        s'.thread_id = 0) ∧
    (∀ e s', Switflake.generate_id (some 0) ⟨1, 0, 0⟩ = (.error e, s') →
      s' = ⟨1, 0, 0⟩) :=
  generate_id_frame (some 0) ⟨1, 0, 0⟩ (by norm_num)

/-- Claim C7: `release` clears exactly the bit at position `slot_id` of a
`u8` occupancy word, leaves every other bit unchanged, is a no-op on an
already-free slot, and is idempotent. -/
theorem release_clears_exactly (w id : Nat) (hw : w < 2 ^ 8) (hid : id < 8) :
    (∀ j, (ThreadIdPool.release id w).testBit j =
      (w.testBit j && !(decide (j = id)))) ∧
    (w.testBit id = false → ThreadIdPool.release id w = w) ∧
    ThreadIdPool.release id (ThreadIdPool.release id w) =
      ThreadIdPool.release id w := by
  refine ⟨release_testBit w hid hw, ?_, ?_⟩
  · intro hfree
    apply Nat.eq_of_testBit_eq
    intro j
    rw [release_testBit w hid hw j]
    by_cases hji : j = id
    · rw [hji, hfree]
      simp
    · simp [hji]
  · unfold ThreadIdPool.release
    rw [Nat.and_assoc, Nat.and_self]

/-- Witness for C7 at word `0b111`, slot 1. -/
theorem release_clears_exactly_witness :
    (∀ j, (ThreadIdPool.release 1 7).testBit j =
      ((7 : Nat).testBit j && !(decide (j = 1)))) ∧
    ((7 : Nat).testBit 1 = false → ThreadIdPool.release 1 7 = 7) ∧
    ThreadIdPool.release 1 (ThreadIdPool.release 1 7) =
      ThreadIdPool.release 1 7 :=
  release_clears_exactly 7 1 (by norm_num) (by norm_num)

/-- Claim C9: with the counter below its maximum, `generate_id` fails with
`ClockError` ("Time went backwards") if and only if the system clock reads a
time before the Unix epoch (`clock = none`). -/
theorem clock_error_iff (clock : Option Nat) (s : Switflake)
    (hc : s.local_counter ≠ 0xFF) :
    ((Switflake.generate_id clock s).1 = .error "Time went backwards" ↔
      clock = none) := by
  constructor
  · intro h
    cases clock with
    | none => rfl
    | some t =>
      simp only [Switflake.generate_id, if_neg hc] at h
      simp at h
  · intro h
    subst h
    rw [generate_id_clock_err s hc]

/-- Witness for C9 at a concrete generator, both clock outcomes. -/
theorem clock_error_iff_witness :
    ((Switflake.generate_id none ⟨1, 0, 0⟩).1 =
      .error "Time went backwards" ↔ (none : Option Nat) = none) :=
  clock_error_iff none ⟨1, 0, 0⟩ (by norm_num)

lemma seq_mask_eq (tid c : Nat) (htid : tid < 8) (hc : c < 2 ^ 8) :
    ((tid <<< 8) ||| c) &&& 0x7FF = tid * 2 ^ 8 + c := by
  have hseq : (tid <<< 8) ||| c = tid * 2 ^ 8 + c := by
    rw [Nat.shiftLeft_eq]
    exact or_mul_pow_eq_add hc
  rw [hseq, mask11_eq_mod]
  exact Nat.mod_eq_of_lt (by omega)

lemma claimed_layout_eq_val (t n tid c : Nat) (hn : n < 2 ^ 12)
    (htid : tid < 8) (hc : c < 2 ^ 8) :
    ((t &&& 0x1FFFFFFFFFF) <<< 23) ||| (n <<< 11) |||
      (((tid <<< 8) ||| c) &&& 0x7FF) =
    (t % 2 ^ 41) * 2 ^ 23 + (n * 2 ^ 11 + (tid * 2 ^ 8 + c)) := by
  have hinner : (n * 2 ^ 11) ||| (tid * 2 ^ 8 + c) =
      n * 2 ^ 11 + (tid * 2 ^ 8 + c) :=
    or_mul_pow_eq_add (by omega)
  have houter : ((t % 2 ^ 41) * 2 ^ 23) |||
      (n * 2 ^ 11 + (tid * 2 ^ 8 + c)) =
      (t % 2 ^ 41) * 2 ^ 23 + (n * 2 ^ 11 + (tid * 2 ^ 8 + c)) :=
    or_mul_pow_eq_add (by omega)
  rw [mask41_eq_mod, seq_mask_eq tid c htid hc, Nat.or_assoc,
    Nat.shiftLeft_eq (t % 2 ^ 41) 23, Nat.shiftLeft_eq n 11, hinner, houter]

/-- Claim C1: a successful `generate_id` on stored node id `n`, slot id `s`,
counter `c` with clock reading `t` ms returns exactly
`((t &&& 0x1FFFFFFFFFF) <<< 23) ||| (n <<< 11) ||| (((s <<< 8) ||| c) &&& 0x7FF)`:
the 41-bit masked timestamp fills bits 63–23, the node id bits 22–11, and
the masked slot/counter value bits 10–0. -/
theorem generate_id_bit_layout (s : Switflake) (t : Nat) (hWf : s.Wf)
    (hsucc : s.local_counter ≠ 0xFF) :
    ∃ id, (Switflake.generate_id (some t) s).1 = .ok id ∧
      id = ((t &&& 0x1FFFFFFFFFF) <<< 23) ||| (s.node_id <<< 11) |||
        (((s.thread_id <<< 8) ||| s.local_counter) &&& 0x7FF) ∧
      id >>> 23 = t &&& 0x1FFFFFFFFFF ∧
      (id >>> 11) &&& 0xFFF = s.node_id ∧
      id &&& 0x7FF = ((s.thread_id <<< 8) ||| s.local_counter) &&& 0x7FF := by
  obtain ⟨id, heq, hval, hmod, hnodef, hts⟩ :=
    generate_id_ok_spec t s hWf hsucc
  obtain ⟨hn, htid, hcnt⟩ := hWf
  have hlay := claimed_layout_eq_val t s.node_id s.thread_id s.local_counter
    hn htid hcnt
  refine ⟨id, by rw [heq], by rw [hval, hlay], ?_, hnodef, ?_⟩
  · rw [mask41_eq_mod]
    exact hts
  · rw [mask11_eq_mod, seq_mask_eq s.thread_id s.local_counter htid hcnt,
      hval]
    omega

/-- Witness for C1 at node id 1, slot 2, counter 5, clock 99 ms. -/
theorem generate_id_bit_layout_witness :
    ∃ id, (Switflake.generate_id (some 99) ⟨1, 2, 5⟩).1 = .ok id ∧
      id = ((99 &&& 0x1FFFFFFFFFF) <<< 23) ||| ((1 : Nat) <<< 11) |||
        ((((2 : Nat) <<< 8) ||| 5) &&& 0x7FF) ∧
      id >>> 23 = 99 &&& 0x1FFFFFFFFFF ∧
      (id >>> 11) &&& 0xFFF = 1 ∧
      id &&& 0x7FF = (((2 : Nat) <<< 8) ||| 5) &&& 0x7FF :=
  generate_id_bit_layout ⟨1, 2, 5⟩ 99 (by refine ⟨?_, ?_, ?_⟩ <;> norm_num)
    (by norm_num)

/-- Claim C2: every sequence of consecutive successful `generate_id` calls
on one generator returns pairwise distinct identifiers, whatever the clock
readings are (repeated or decreasing timestamps included), because the
counter survives in the low 8 bits of each identifier. -/
theorem run_ids_pairwise_distinct (s : Switflake) (cs : List (Option Nat))
    (ids : List Nat) (s' : Switflake) (hWf : s.Wf)
    (hrun : runGen cs s = some (ids, s')) : ids.Nodup := by
  obtain ⟨hlen, _, _, _, hbd, hmap, _⟩ := runGen_ok_spec cs s ids s' hWf hrun
  have hmapnd : (ids.map (· % 2 ^ 8)).Nodup := by
    rw [hmap]
    exact List.nodup_range' _ _
  exact List.Nodup.of_map _ hmapnd

/-- Witness for C2: two calls with identical clock readings. -/
theorem run_ids_pairwise_distinct_witness :
    ([2048, 2049] : List Nat).Nodup :=
  run_ids_pairwise_distinct ⟨1, 0, 0⟩ [some 0, some 0] [2048, 2049] ⟨1, 0, 2⟩
    (by refine ⟨?_, ?_, ?_⟩ <;> norm_num) (by decide)

/-- Claim C3: from a freshly constructed generator (counter 0), 255 calls
with valid clock readings all succeed (in particular the 255th does); the
state then has counter `0xFF` and the 256th call fails with
`SequenceExhausted` ("Sequence limit reached for this millisecond")
whatever the clock says; moreover no run from the fresh state ever returns
more than 255 identifiers, so the per-lifetime output stays below the
claimed ceiling of 256. -/
theorem sequence_exhaustion_boundary (s : Switflake) (cs : List (Option Nat))
    (hWf : s.Wf) (h0 : s.local_counter = 0) (hlen : cs.length = 255)
    (hsome : ∀ c ∈ cs, c ≠ none) :
    (∃ ids s', runGen cs s = some (ids, s') ∧ ids.length = 255 ∧
      s'.local_counter = 0xFF ∧
      ∀ clock, Switflake.generate_id clock s' =
        (.error "Sequence limit reached for this millisecond", s')) ∧
    (∀ cs' ids' s'', runGen cs' s = some (ids', s'') →
      ids'.length ≤ 255) := by
  constructor
  · obtain ⟨ids, s', hrun⟩ := runGen_total cs s hWf hsome (by omega)
    obtain ⟨hlen2, _, _, hcnt, _, _, _⟩ := runGen_ok_spec cs s ids s' hWf hrun
    have hc' : s'.local_counter = 0xFF := by omega
    exact ⟨ids, s', hrun, by omega, hc',
      fun clock => generate_id_seq_err clock s' hc'⟩
  · intro cs' ids' s'' hrun
    obtain ⟨hlen2, _, _, _, hbd, _, _⟩ := runGen_ok_spec cs' s ids' s'' hWf hrun
    omega

/-- Witness for C3: fresh generator, 255 clock readings of 0 ms. -/
theorem sequence_exhaustion_boundary_witness :
    (∃ ids s', runGen (List.replicate 255 (some 0)) ⟨1, 0, 0⟩ =
        some (ids, s') ∧ ids.length = 255 ∧
      s'.local_counter = 0xFF ∧
      ∀ clock, Switflake.generate_id clock s' =
        (.error "Sequence limit reached for this millisecond", s')) ∧
    (∀ cs' ids' s'', runGen cs' ⟨1, 0, 0⟩ = some (ids', s'') →
      ids'.length ≤ 255) :=
  sequence_exhaustion_boundary ⟨1, 0, 0⟩ (List.replicate 255 (some 0))
    (by refine ⟨?_, ?_, ?_⟩ <;> norm_num) rfl
    (List.length_replicate 255 (some 0))
    (by
      intro c hc
      rw [List.eq_of_mem_replicate hc]
      simp)

/-- Claim C8: construction retains only the low 12 bits of the supplied
node id (`input &&& 0xFFF`), and the node field (bits 22–11) of every
identifier the generator produces equals that truncated value. -/
theorem node_id_truncation (input w : Nat) (g : Switflake) (w' : Nat)
    (hnew : Switflake.new input w = .ok (g, w')) :
    g.node_id = input &&& 0xFFF ∧
    ∀ cs ids s', runGen cs g = some (ids, s') →
      ∀ id ∈ ids, (id >>> 11) &&& 0xFFF = input &&& 0xFFF := by
  obtain ⟨hgnode, hgcnt, hgtid, _, _, hgWf⟩ := new_ok_inv hnew
  refine ⟨hgnode, ?_⟩
  intro cs ids s' hrun id hid
  obtain ⟨_, _, _, _, _, _, hnd⟩ := runGen_ok_spec cs g ids s' hgWf hrun
  rw [hnd id hid, hgnode]

/-- Witness for C8: constructing with `0x1FFF` stores `0xFFF`. -/
theorem node_id_truncation_witness :
    (⟨0xFFF, 0, 0⟩ : Switflake).node_id = 0x1FFF &&& 0xFFF ∧
    ∀ cs ids s', runGen cs ⟨0xFFF, 0, 0⟩ = some (ids, s') →
      ∀ id ∈ ids, (id >>> 11) &&& 0xFFF = 0x1FFF &&& 0xFFF :=
  node_id_truncation 0x1FFF 0 ⟨0xFFF, 0, 0⟩ 1 rfl

/-- Claim C4: in every reachable state of the step relation over
construction, destruction, and `generate_id`, a slot's bit is set in the
pool word if and only if exactly one live generator holds that slot id;
consequently any two concurrently live generators hold distinct slot ids. -/
theorem pool_bit_iff_unique_holder (σ : SysState) (h : Reachable σ) :
    (∀ i, i < 8 → (σ.pool.testBit i = true ↔ holdersCount σ i = 1)) ∧
    List.Pairwise (fun g₁ g₂ => g₁.thread_id ≠ g₂.thread_id) σ.live := by
  obtain ⟨hpool, hwf, hcount⟩ := reachable_sysInv h
  constructor
  · intro i hi
    rw [hcount i hi]
    cases hb : σ.pool.testBit i <;> simp
  · apply pairwise_ne_of_countP_le_one
    · intro i hi
      have hc := hcount i hi
      unfold holdersCount at hc
      cases hb : σ.pool.testBit i
      · rw [hb, if_neg (fun hh => Bool.noConfusion hh)] at hc
        omega
      · rw [hb, if_pos rfl] at hc
        omega
    · intro g hg
      exact (hwf g hg).2.1

/-- Witness for C4 at a reachable state holding one live generator. -/
theorem pool_bit_iff_unique_holder_witness :
    (∀ i, i < 8 → ((1 : Nat).testBit i = true ↔
      holdersCount ⟨1, [⟨1, 0, 0⟩]⟩ i = 1)) ∧
    List.Pairwise (fun g₁ g₂ => g₁.thread_id ≠ g₂.thread_id)
      ([⟨1, 0, 0⟩] : List Switflake) :=
  pool_bit_iff_unique_holder ⟨1, [⟨1, 0, 0⟩]⟩
    (Reachable.step Reachable.init
      (Step.construct ⟨0, []⟩ 1 ⟨1, 0, 0⟩ 1 rfl))

/-- Claim C10: in every reachable state every live generator's slot id was
handed out by `acquire` and is `< 8`, so the `u8` shift `1 << id` evaluated
at `release`'s only call site (`Drop`) stays below `2 ^ 8` and cannot
overflow; and whenever the increment of `local_counter` is reached (the
`== 0xFF` guard passed), the `u8` addition does not overflow. -/
theorem no_overflow_in_reachable (σ : SysState) (h : Reachable σ) :
    ∀ g ∈ σ.live, g.thread_id < 8 ∧
      (1 <<< g.thread_id) % 2 ^ 8 = 1 <<< g.thread_id ∧
      (g.local_counter ≠ 0xFF →
        (g.local_counter + 1) % 2 ^ 8 = g.local_counter + 1) := by
  obtain ⟨hpool, hwf, _⟩ := reachable_sysInv h
  intro g hg
  obtain ⟨hn, htid, hcnt⟩ := hwf g hg
  refine ⟨htid, ?_, ?_⟩
  · rw [one_shiftLeft_eq]
    exact Nat.mod_eq_of_lt (Nat.pow_lt_pow_right (by norm_num) htid)
  · intro hne
    exact Nat.mod_eq_of_lt (by omega)

/-- Witness for C10 at a reachable state holding one live generator. -/
theorem no_overflow_in_reachable_witness :
    (⟨1, 0, 0⟩ : Switflake).thread_id < 8 ∧
    (1 <<< (⟨1, 0, 0⟩ : Switflake).thread_id) % 2 ^ 8 =
      1 <<< (⟨1, 0, 0⟩ : Switflake).thread_id ∧
    ((⟨1, 0, 0⟩ : Switflake).local_counter ≠ 0xFF →
      ((⟨1, 0, 0⟩ : Switflake).local_counter + 1) % 2 ^ 8 =
        (⟨1, 0, 0⟩ : Switflake).local_counter + 1) :=
  no_overflow_in_reachable ⟨1, [⟨1, 0, 0⟩]⟩
    (Reachable.step Reachable.init
      (Step.construct ⟨0, []⟩ 1 ⟨1, 0, 0⟩ 1 rfl))
    ⟨1, 0, 0⟩ (List.mem_singleton.mpr rfl)
